import Mathlib

/-!
Verification of the CSE report scraper (`scraper.py`).

The file gives a shallow embedding of the program: the per-report-type row
loop of `download_report` (lines 90-123), the Google Drive helpers
`get_or_create_folder` (lines 35-47) and `upload_to_drive` (lines 49-61),
the orchestration `run_downloader` (lines 131-169), and the `__main__`
argument dispatch (lines 171-179).  External effects (HTTP fetch, Drive
upload, browser navigation) are modelled by boolean success oracles and an
explicit event trace; the Drive is modelled by an explicit file-list state.
-/

/-- A calendar date as produced by `datetime.strptime`.  Comparison of the
`datetime` values in Python is chronological; on valid parsed dates
(`month ≤ 12 < 16`, `day ≤ 31 < 32`) this coincides with the order of
`Date.key` used below. -/
structure Date where
  year : Nat
  month : Nat
  day : Nat
deriving DecidableEq, Repr

def Date.key (d : Date) : Nat :=
  (d.year * 16 + d.month) * 32 + d.day

/-- `a <= b` on dates, as the `>=` comparison of `datetime` objects at
line 98 (with arguments in the corresponding order). -/
def Date.le (a b : Date) : Bool :=
  decide (a.key ≤ b.key)

def digitChar (n : Nat) : Char :=
  if n = 0 then '0' else if n = 1 then '1' else if n = 2 then '2'
  else if n = 3 then '3' else if n = 4 then '4' else if n = 5 then '5'
  else if n = 6 then '6' else if n = 7 then '7' else if n = 8 then '8'
  else '9'

/-- Fuelled loop producing the decimal digits of `n`, most significant
first, in front of `acc`. -/
def natDigitsCore : Nat → Nat → List Char → List Char
  | 0, _, acc => acc
  | fuel + 1, n, acc =>
    if n < 10 then digitChar n :: acc
    else natDigitsCore fuel (n / 10) (digitChar (n % 10) :: acc)

/-- Decimal digits of `n`, most significant first. -/
def natDigits (n : Nat) : List Char :=
  natDigitsCore (n + 1) n []

/-- Left-pad a digit string with zeros to width `k`. -/
def padLeft (l : List Char) (k : Nat) : List Char :=
  List.replicate (k - l.length) '0' ++ l

/-- `date_obj.strftime` with format `%Y-%m-%d` (line 103): zero-padded
ISO rendering. -/
def Date.toIso (d : Date) : String :=
  ⟨padLeft (natDigits d.year) 4 ++
    '-' :: (padLeft (natDigits d.month) 2 ++ '-' :: padLeft (natDigits d.day) 2)⟩

/-- `os.path.join(temp_download_dir, local_filename)` with
`local_filename = f"\x7bformatted_date\x7d-\x7bcompany_code\x7d.pdf"`
(lines 105-108). -/
def tempPath (d : Date) (company : String) : String :=
  "temp_reports/" ++ Date.toIso d ++ "-" ++ company ++ ".pdf"

/-- One `<tr>` of a report table, as consumed by the loop at lines 90-123:
the number of `<td>` cells, the parse result of the first cell's text under
format `%d %b %Y` (`none` models the `ValueError` branch of line 96), and
the href of an anchor ending in `.pdf` when one exists (line 99). -/
structure Row where
  numCols : Nat
  dateText : Option Date
  pdfLink : Option String
deriving DecidableEq, Repr

/-- Observable effects of the program on the outside world. -/
inductive Ev where
  | auth (ok : Bool)
  | browserStart
  | navigateCompany
  | fetch (url : String) (ok : Bool)
  | writeFile (path : String)
  | upload (path : String) (ok : Bool)
  | removeFile (path : String)
deriving DecidableEq, Repr

/-- Outcome of one report-type cycle: the effect trace, the final
`downloads_found` counter, the successfully uploaded `(date, url)` records
in order, the number of rows the loop consumed, and whether an exception
reached the `except` handler at line 128. -/
structure SyncResult where
  events : List Ev
  count : Nat
  uploaded : List (Date × String)
  examined : Nat
  aborted : Bool
deriving DecidableEq, Repr

/-- A `continue` iteration: the row is consumed, nothing else changes. -/
def skipStep (r : SyncResult) : SyncResult :=
  { r with examined := r.examined + 1 }

/-- The row loop of `download_report` (lines 90-123).  `requests.get` plus
`raise_for_status` is the oracle `fetchOk` on the url; the Drive upload is
the oracle `uploadOk` on the local path.  A failing fetch or upload raises,
so the loop stops with `aborted := true` and the temp file of a failed
upload is not removed (the `os.remove` at line 119 is only reached after a
successful upload). -/
def processRows (fetchOk uploadOk : String → Bool) (company : String)
    (cutoff : Date) : List Row → SyncResult
  | [] => ⟨[], 0, [], 0, false⟩
  | row :: rest =>
    if row.numCols < 2 then
      skipStep (processRows fetchOk uploadOk company cutoff rest)
    else
      match row.dateText with
      | none => skipStep (processRows fetchOk uploadOk company cutoff rest)
      | some d =>
        if Date.le cutoff d then
          match row.pdfLink with
          | none => skipStep (processRows fetchOk uploadOk company cutoff rest)
          | some url =>
            if fetchOk url then
              if uploadOk (tempPath d company) then
                let r := processRows fetchOk uploadOk company cutoff rest
                ⟨Ev.fetch url true :: Ev.writeFile (tempPath d company) ::
                   Ev.upload (tempPath d company) true ::
                   Ev.removeFile (tempPath d company) :: r.events,
                 r.count + 1, (d, url) :: r.uploaded, r.examined + 1, r.aborted⟩
              else
                ⟨[Ev.fetch url true, Ev.writeFile (tempPath d company),
                   Ev.upload (tempPath d company) false], 0, [], 1, true⟩
            else
              ⟨[Ev.fetch url false], 0, [], 1, true⟩
        else
          ⟨[], 0, [], 1, false⟩

def allTrue : String → Bool := fun _ => true

/-- A row with fewer than two cells makes the loop `continue`. -/
theorem processRows_skip_short (fetchOk uploadOk : String → Bool)
    (company : String) (cutoff : Date) (dt : Option Date) (pl : Option String)
    (n : Nat) (rest : List Row) (h : n < 2) :
    processRows fetchOk uploadOk company cutoff (⟨n, dt, pl⟩ :: rest) =
      skipStep (processRows fetchOk uploadOk company cutoff rest) := by
  simp [processRows, h]

/-- Claim C9: a row with fewer than two cells is skipped before any date
parsing or link lookup; the loop continues with the remaining rows,
whatever the row's date text, its link and the cutoff are. -/
theorem short_row_skipped (fetchOk uploadOk : String → Bool)
    (company : String) (cutoff : Date) (dt : Option Date) (pl : Option String)
    (n : Nat) (rest : List Row) (h : n < 2) :
    processRows fetchOk uploadOk company cutoff (⟨n, dt, pl⟩ :: rest) =
      skipStep (processRows fetchOk uploadOk company cutoff rest) := by
  simp [processRows, h]

/-- Witness for C9 at a concrete short row. -/
theorem short_row_skipped_witness :
    (1 : Nat) < 2 ∧
      processRows allTrue allTrue "LOLC" ⟨2024, 1, 1⟩
          [⟨1, some ⟨2024, 3, 1⟩, some "a.pdf"⟩] =
        skipStep (processRows allTrue allTrue "LOLC" ⟨2024, 1, 1⟩ []) :=
  ⟨by decide,
    short_row_skipped allTrue allTrue "LOLC" ⟨2024, 1, 1⟩
      (some ⟨2024, 3, 1⟩) (some "a.pdf") 1 [] (by decide)⟩

/-- Unfolding of the loop on a qualifying, well-formed row whose fetch and
upload both succeed. -/
theorem processRows_qualifying (fetchOk uploadOk : String → Bool)
    (company : String) (cutoff : Date) (d : Date) (u : String)
    (rest : List Row) (hle : Date.le cutoff d = true) (hf : fetchOk u = true)
    (hu : uploadOk (tempPath d company) = true) :
    processRows fetchOk uploadOk company cutoff (⟨2, some d, some u⟩ :: rest) =
      ⟨Ev.fetch u true :: Ev.writeFile (tempPath d company) ::
         Ev.upload (tempPath d company) true ::
         Ev.removeFile (tempPath d company) ::
         (processRows fetchOk uploadOk company cutoff rest).events,
       (processRows fetchOk uploadOk company cutoff rest).count + 1,
       (d, u) :: (processRows fetchOk uploadOk company cutoff rest).uploaded,
       (processRows fetchOk uploadOk company cutoff rest).examined + 1,
       (processRows fetchOk uploadOk company cutoff rest).aborted⟩ := by
  simp [processRows, hle, hf, hu]

/-- Unfolding of the loop on a row whose date is before the cutoff: the
`else: break` at lines 121-123 fires, whatever the link and the tail are. -/
theorem processRows_stop (fetchOk uploadOk : String → Bool) (company : String)
    (cutoff : Date) (d : Date) (pl : Option String) (n : Nat)
    (rest : List Row) (hle : Date.le cutoff d = false) (h2 : 2 ≤ n) :
    processRows fetchOk uploadOk company cutoff (⟨n, some d, pl⟩ :: rest) =
      ⟨[], 0, [], 1, false⟩ := by
  simp [processRows, hle, Nat.not_lt.mpr h2]

/-- Claim C2, counterexample: a row whose only defect is a missing document
link, but whose date is before the cutoff, terminates iteration - the
`else: break` fires before the link is ever looked up - so the next row is
never examined and its qualifying report is not uploaded.  The claim says
such a malformed row is omitted and processing continues with the
remaining rows. -/
theorem malformed_row_counterexample :
    (processRows allTrue allTrue "LOLC" ⟨2024, 1, 1⟩
        [⟨2, some ⟨2020, 1, 5⟩, none⟩,
         ⟨2, some ⟨2025, 1, 1⟩, some "b.pdf"⟩]).examined = 1 ∧
    (processRows allTrue allTrue "LOLC" ⟨2024, 1, 1⟩
        [⟨2, some ⟨2020, 1, 5⟩, none⟩,
         ⟨2, some ⟨2025, 1, 1⟩, some "b.pdf"⟩]).count = 0 ∧
    (processRows allTrue allTrue "LOLC" ⟨2024, 1, 1⟩
        [⟨2, some ⟨2025, 1, 1⟩, some "b.pdf"⟩]).count = 1 := by
  decide

/-- Claim C2 (amended): a short row or a row with unparseable date text is
skipped and processing continues; a linkless row is skipped and processing
continues when its date is at or after the cutoff; a row dated before the
cutoff stops the loop cleanly (no abort) regardless of its link - the
missing link is only consulted for records at or after the cutoff, and a
malformed row never aborts the report-type cycle. -/
theorem malformed_row_amended (fetchOk uploadOk : String → Bool)
    (company : String) (cutoff : Date) (row : Row) (rest : List Row) :
    (row.numCols < 2 ∨ row.dateText = none →
      processRows fetchOk uploadOk company cutoff (row :: rest) =
        skipStep (processRows fetchOk uploadOk company cutoff rest)) ∧
    (∀ d, row.dateText = some d → Date.le cutoff d = true →
      row.pdfLink = none → 2 ≤ row.numCols →
      processRows fetchOk uploadOk company cutoff (row :: rest) =
        skipStep (processRows fetchOk uploadOk company cutoff rest)) ∧
    (∀ d, row.dateText = some d → Date.le cutoff d = false →
      2 ≤ row.numCols →
      processRows fetchOk uploadOk company cutoff (row :: rest) =
        ⟨[], 0, [], 1, false⟩) := by
  obtain ⟨n, dt, pl⟩ := row
  refine ⟨?_, ?_, ?_⟩
  · rintro (h | h)
    · simp at h
      simp [processRows, h]
    · simp at h
      subst h
      by_cases h2 : n < 2 <;> simp [processRows, h2]
  · rintro d rfl hle rfl h2
    simp [processRows, hle, Nat.not_lt.mpr h2]
  · rintro d rfl hle h2
    exact processRows_stop fetchOk uploadOk company cutoff d pl n rest hle h2

/-- Witness for the amended C2: a qualifying linkless row is skipped and
the following row is still processed. -/
theorem malformed_row_amended_witness :
    processRows allTrue allTrue "LOLC" ⟨2024, 1, 1⟩
        [⟨2, some ⟨2024, 5, 2⟩, none⟩, ⟨2, some ⟨2024, 4, 1⟩, some "c.pdf"⟩] =
      skipStep (processRows allTrue allTrue "LOLC" ⟨2024, 1, 1⟩
        [⟨2, some ⟨2024, 4, 1⟩, some "c.pdf"⟩]) :=
  (malformed_row_amended allTrue allTrue "LOLC" ⟨2024, 1, 1⟩
      ⟨2, some ⟨2024, 5, 2⟩, none⟩ [⟨2, some ⟨2024, 4, 1⟩, some "c.pdf"⟩]).2.1
    ⟨2024, 5, 2⟩ rfl (by decide) rfl (by decide)

/-- The descending publication order the spec assumes of the source table. -/
def sortedDesc (l : List Date) : Prop :=
  List.Pairwise (fun a b => Date.le b a = true) l

/-- A well-formed table row carrying the record `(date, url)`. -/
def mkRow (r : Date × String) : Row :=
  ⟨2, some r.1, some r.2⟩

theorem date_le_below (cutoff d x : Date) (h : Date.le cutoff d = false)
    (hx : Date.le x d = true) : Date.le cutoff x = false := by
  simp only [Date.le, decide_eq_true_eq, decide_eq_false_iff_not] at *
  omega

/-- Claim C1: on a record sequence sorted descending by date, with the
fetch and upload oracles succeeding, the loop uploads exactly the prefix of
records dated at or after the cutoff, never aborts, stops at the first
older record, and its whole outcome is already determined by the rows up
to and including that first older record - later rows are not examined. -/
theorem cutoff_prefix (fetchOk uploadOk : String → Bool) (company : String)
    (cutoff : Date) (recs : List (Date × String))
    (hs : sortedDesc (recs.map Prod.fst))
    (hf : ∀ u, fetchOk u = true) (hu : ∀ p, uploadOk p = true) :
    (processRows fetchOk uploadOk company cutoff (recs.map mkRow)).uploaded =
        recs.filter (fun r => Date.le cutoff r.1) ∧
    (processRows fetchOk uploadOk company cutoff (recs.map mkRow)).uploaded =
        recs.takeWhile (fun r => Date.le cutoff r.1) ∧
    (processRows fetchOk uploadOk company cutoff (recs.map mkRow)).examined =
        min recs.length
          ((recs.takeWhile (fun r => Date.le cutoff r.1)).length + 1) ∧
    (processRows fetchOk uploadOk company cutoff (recs.map mkRow)).aborted =
        false ∧
    processRows fetchOk uploadOk company cutoff (recs.map mkRow) =
      processRows fetchOk uploadOk company cutoff
        ((recs.map mkRow).take
          ((recs.takeWhile (fun r => Date.le cutoff r.1)).length + 1)) := by
  induction recs with
  | nil => simp [processRows]
  | cons hd tl ih =>
    obtain ⟨d, u⟩ := hd
    simp only [List.map_cons, List.pairwise_cons, sortedDesc] at hs
    obtain ⟨hall, htl⟩ := hs
    obtain ⟨ihA, ihB, ihC, ihD, ihE⟩ := ih htl
    by_cases hle : Date.le cutoff d = true
    · have hq := processRows_qualifying fetchOk uploadOk company cutoff d u
        (tl.map mkRow) hle (hf u) (hu (tempPath d company))
      have hmk : mkRow (d, u) = ⟨2, some d, some u⟩ := rfl
      refine ⟨?_, ?_, ?_, ?_, ?_⟩
      · simp only [List.map_cons, hmk, hq, List.filter_cons, hle, if_pos]
        simp [ihA]
      · simp only [List.map_cons, hmk, hq, List.takeWhile_cons, hle, if_pos]
        simp [ihB]
      · have htwp : List.takeWhile (fun r => Date.le cutoff r.1) ((d, u) :: tl)
            = (d, u) :: List.takeWhile (fun r => Date.le cutoff r.1) tl := by
          simp [List.takeWhile_cons, hle]
        rw [List.map_cons, hmk, hq, htwp, List.length_cons, List.length_cons]
        dsimp only
        omega
      · simp only [List.map_cons, hmk, hq]
        exact ihD
      · have htwp : List.takeWhile (fun r => Date.le cutoff r.1) ((d, u) :: tl)
            = (d, u) :: List.takeWhile (fun r => Date.le cutoff r.1) tl := by
          simp [List.takeWhile_cons, hle]
        have hq2 := processRows_qualifying fetchOk uploadOk company cutoff d u
          ((tl.map mkRow).take
            ((tl.takeWhile (fun r => Date.le cutoff r.1)).length + 1))
          hle (hf u) (hu (tempPath d company))
        rw [List.map_cons, hmk, htwp, List.length_cons, List.take_succ_cons,
          hq, hq2, ← ihE]
    · have hle' : Date.le cutoff d = false := by
        cases h : Date.le cutoff d
        · rfl
        · exact absurd h hle
      have hmk : mkRow (d, u) = ⟨2, some d, some u⟩ := rfl
      have hstop := processRows_stop fetchOk uploadOk company cutoff d
        (some u) 2 (tl.map mkRow) hle' (by omega)
      have hfil : tl.filter (fun r => Date.le cutoff r.1) = [] := by
        rw [List.filter_eq_nil_iff]
        intro a ha
        have := hall a.1 (List.mem_map_of_mem Prod.fst ha)
        simp [date_le_below cutoff d a.1 hle' this]
      have htwn : List.takeWhile (fun r => Date.le cutoff r.1) ((d, u) :: tl)
          = [] := by
        simp [List.takeWhile_cons, hle']
      refine ⟨?_, ?_, ?_, ?_, ?_⟩
      · rw [List.map_cons, hmk, hstop]
        simp [List.filter_cons, hle', hfil]
      · rw [List.map_cons, hmk, hstop, htwn]
      · rw [List.map_cons, hmk, hstop, htwn]
        simp only [List.length_cons, List.length_nil]
        omega
      · rw [List.map_cons, hmk, hstop]
      · have hstop2 := processRows_stop fetchOk uploadOk company cutoff d
          (some u) 2 ((tl.map mkRow).take 0) hle' (by omega)
        rw [List.map_cons, hmk, htwn]
        simp only [List.length_nil]
        rw [List.take_succ_cons, hstop, hstop2]

/-- Witness for C1 at the spec's example: cutoff 2024-01-01 and records
(2024-03-01, urlA), (2023-12-01, urlB). -/
theorem cutoff_prefix_witness :
    sortedDesc ([((⟨2024, 3, 1⟩ : Date), "urlA"),
        ((⟨2023, 12, 1⟩ : Date), "urlB")].map Prod.fst) ∧
    (processRows allTrue allTrue "LOLC" ⟨2024, 1, 1⟩
        ([((⟨2024, 3, 1⟩ : Date), "urlA"),
          ((⟨2023, 12, 1⟩ : Date), "urlB")].map mkRow)).uploaded =
      [((⟨2024, 3, 1⟩ : Date), "urlA")] :=
  ⟨by unfold sortedDesc; decide,
    by
      have h := cutoff_prefix allTrue allTrue "LOLC" ⟨2024, 1, 1⟩
        [((⟨2024, 3, 1⟩ : Date), "urlA"), ((⟨2023, 12, 1⟩ : Date), "urlB")]
        (by unfold sortedDesc; decide) (fun _ => rfl) (fun _ => rfl)
      rw [h.1]
      decide⟩

/-- A file or folder node of the Drive. -/
structure DriveFile where
  id : String
  title : String
  parent : String
  isFolder : Bool
  trashed : Bool
deriving DecidableEq, Repr

/-- The Drive: its nodes plus a counter supplying fresh node ids. -/
structure DriveState where
  files : List DriveFile
  nextId : Nat
deriving DecidableEq, Repr

/-- The query of line 37: same parent, folder mime type, same title, not
trashed. -/
def folderMatch (parentId title : String) (f : DriveFile) : Bool :=
  f.parent == parentId && f.isFolder && f.title == title && !f.trashed

/-- `drive.ListFile(...).GetList()` at line 38. -/
def listQuery (files : List DriveFile) (parentId title : String) :
    List DriveFile :=
  files.filter (folderMatch parentId title)

/-- `get_or_create_folder` (lines 35-47): return the id of the first match,
or create the folder under the parent and return the fresh id. -/
def get_or_create_folder (s : DriveState) (folderName parentFolderId : String) :
    String × DriveState :=
  match listQuery s.files parentFolderId folderName with
  | f :: _ => (f.id, s)
  | [] =>
    (⟨'f' :: natDigits s.nextId⟩,
     ⟨s.files ++ [⟨⟨'f' :: natDigits s.nextId⟩, folderName, parentFolderId,
        true, false⟩], s.nextId + 1⟩)

theorem listQuery_append (files : List DriveFile) (g : DriveFile)
    (p' n' : String) :
    listQuery (files ++ [g]) p' n' =
      listQuery files p' n' ++ (if folderMatch p' n' g then [g] else []) := by
  simp only [listQuery, List.filter_append, List.filter]
  cases folderMatch p' n' g <;> rfl

/-- Claim C3: resolving a folder by (name, parent) is idempotent.  Under the
invariant that at most one folder with a given name exists under a given
parent, a second call with the same arguments returns the same identifier
and leaves the state untouched, the two calls create at most one folder
overall, the invariant is preserved, and afterwards exactly one folder with
that name exists under that parent. -/
theorem folder_resolution_idempotent (s : DriveState) (nm p : String)
    (hinv : ∀ n' p', (listQuery s.files p' n').length ≤ 1) :
    (get_or_create_folder (get_or_create_folder s nm p).2 nm p).1 =
        (get_or_create_folder s nm p).1 ∧
    (get_or_create_folder (get_or_create_folder s nm p).2 nm p).2 =
        (get_or_create_folder s nm p).2 ∧
    (get_or_create_folder s nm p).2.files.length ≤ s.files.length + 1 ∧
    (∀ n' p',
      (listQuery (get_or_create_folder s nm p).2.files p' n').length ≤ 1) ∧
    (listQuery (get_or_create_folder s nm p).2.files p nm).length = 1 := by
  cases hq : listQuery s.files p nm with
  | cons f fs =>
    have h1 : get_or_create_folder s nm p = (f.id, s) := by
      simp [get_or_create_folder, hq]
    have hlen := hinv nm p
    rw [hq] at hlen
    refine ⟨by simp [h1], by simp [h1], by simp [h1], ?_, ?_⟩
    · simpa [h1] using hinv
    · simp only [h1]
      rw [hq]
      simp only [List.length_cons] at hlen ⊢
      omega
  | nil =>
    have h1 : get_or_create_folder s nm p =
        (⟨'f' :: natDigits s.nextId⟩,
         ⟨s.files ++ [⟨⟨'f' :: natDigits s.nextId⟩, nm, p, true, false⟩],
          s.nextId + 1⟩) := by
      simp [get_or_create_folder, hq]
    have hg : folderMatch p nm
        ⟨⟨'f' :: natDigits s.nextId⟩, nm, p, true, false⟩ = true := by
      simp [folderMatch]
    have h2 : listQuery
        (s.files ++ [⟨⟨'f' :: natDigits s.nextId⟩, nm, p, true, false⟩]) p nm
        = [⟨⟨'f' :: natDigits s.nextId⟩, nm, p, true, false⟩] := by
      rw [listQuery_append, hq, hg]
      simp
    have h3 : get_or_create_folder
        (⟨s.files ++ [⟨⟨'f' :: natDigits s.nextId⟩, nm, p, true, false⟩],
          s.nextId + 1⟩ : DriveState) nm p =
        (⟨'f' :: natDigits s.nextId⟩,
         ⟨s.files ++ [⟨⟨'f' :: natDigits s.nextId⟩, nm, p, true, false⟩],
          s.nextId + 1⟩) := by
      simp only [get_or_create_folder]
      rw [h2]
    refine ⟨?_, ?_, by simp [h1], ?_, ?_⟩
    · rw [h1]
      simp only [h3]
    · rw [h1]
      simp only [h3]
    · intro n' p'
      rw [h1]
      simp only []
      rw [listQuery_append]
      by_cases hm : folderMatch p' n'
          ⟨⟨'f' :: natDigits s.nextId⟩, nm, p, true, false⟩ = true
      · have hp : p' = p ∧ n' = nm := by
          simp only [folderMatch, Bool.and_eq_true, beq_iff_eq] at hm
          exact ⟨hm.1.1.1.symm, hm.1.2.symm⟩
        obtain ⟨rfl, rfl⟩ := hp
        rw [hq, hm]
        simp
      · have hm' : folderMatch p' n'
            ⟨⟨'f' :: natDigits s.nextId⟩, nm, p, true, false⟩ = false := by
          cases h : folderMatch p' n'
              ⟨⟨'f' :: natDigits s.nextId⟩, nm, p, true, false⟩
          · rfl
          · exact absurd h hm
        rw [hm']
        simpa using hinv n' p'
    · rw [h1]
      simp only []
      rw [h2]
      rfl

/-- Witness for C3: resolving "LOLC" twice under folder "f0" in a Drive that
starts with a single unrelated root folder. -/
theorem folder_resolution_idempotent_witness :
    (get_or_create_folder
        (get_or_create_folder
          ⟨[⟨"f9", "CSE Reports", "root", true, false⟩], 0⟩ "LOLC" "f9").2
        "LOLC" "f9").1 =
      (get_or_create_folder
        ⟨[⟨"f9", "CSE Reports", "root", true, false⟩], 0⟩ "LOLC" "f9").1 ∧
    (listQuery
        (get_or_create_folder
          ⟨[⟨"f9", "CSE Reports", "root", true, false⟩], 0⟩ "LOLC" "f9").2.files
        "f9" "LOLC").length = 1 := by
  have h := folder_resolution_idempotent
    ⟨[⟨"f9", "CSE Reports", "root", true, false⟩], 0⟩ "LOLC" "f9"
    (by
      intro n' p'
      simp only [listQuery, List.filter]
      cases folderMatch p' n' ⟨"f9", "CSE Reports", "root", true, false⟩ <;>
        simp)
  exact ⟨h.1, h.2.2.2.2⟩

theorem digitChar_ne_slash (n : Nat) : digitChar n ≠ '/' := by
  unfold digitChar
  repeat' split
  all_goals decide

theorem natDigitsCore_ne_slash (fuel : Nat) :
    ∀ (n : Nat) (acc : List Char), (∀ c ∈ acc, c ≠ '/') →
      ∀ c ∈ natDigitsCore fuel n acc, c ≠ '/' := by
  induction fuel with
  | zero =>
    intro n acc hacc c hc
    exact hacc c hc
  | succ f ih =>
    intro n acc hacc c hc
    simp only [natDigitsCore] at hc
    split at hc
    · rcases List.mem_cons.mp hc with h | h
      · subst h
        exact digitChar_ne_slash n
      · exact hacc c h
    · refine ih (n / 10) (digitChar (n % 10) :: acc) ?_ c hc
      intro c' hc'
      rcases List.mem_cons.mp hc' with h | h
      · subst h
        exact digitChar_ne_slash (n % 10)
      · exact hacc c' h

theorem padLeft_natDigits_ne_slash (n k : Nat) :
    ∀ c ∈ padLeft (natDigits n) k, c ≠ '/' := by
  intro c hc
  rcases List.mem_append.mp hc with h | h
  · rw [List.eq_of_mem_replicate h]
    decide
  · exact natDigitsCore_ne_slash (n + 1) n []
      (fun c' hc' => absurd hc' (List.not_mem_nil c')) c h

theorem toIso_ne_slash (d : Date) : ∀ c ∈ (Date.toIso d).data, c ≠ '/' := by
  intro c hc
  have hc' : c ∈ padLeft (natDigits d.year) 4 ++
      '-' :: (padLeft (natDigits d.month) 2 ++
        '-' :: padLeft (natDigits d.day) 2) := hc
  rcases List.mem_append.mp hc' with h | h
  · exact padLeft_natDigits_ne_slash d.year 4 c h
  · rcases List.mem_cons.mp h with h | h
    · rw [h]; decide
    · rcases List.mem_append.mp h with h | h
      · exact padLeft_natDigits_ne_slash d.month 2 c h
      · rcases List.mem_cons.mp h with h | h
        · rw [h]; decide
        · exact padLeft_natDigits_ne_slash d.day 2 c h

/-- `os.path.basename`: the part of the path after the last slash. -/
def basename (p : String) : String :=
  ⟨(p.data.reverse.takeWhile (fun c => c != '/')).reverse⟩

theorem takeWhile_until_slash (l1 l2 : List Char) (h : ∀ c ∈ l1, c ≠ '/') :
    (l1 ++ '/' :: l2).takeWhile (fun c => c != '/') = l1 := by
  induction l1 with
  | nil => simp [List.takeWhile_cons]
  | cons a l ih =>
    have ha : (a != '/') = true := by
      simpa using h a (List.mem_cons_self a l)
    simp only [List.cons_append, List.takeWhile_cons, ha, if_true]
    rw [ih (fun c hc => h c (List.mem_cons_of_mem a hc))]

theorem basename_of_no_slash (pre : List Char) (name : String)
    (h : ∀ c ∈ name.data, c ≠ '/') :
    basename ⟨pre ++ '/' :: name.data⟩ = name := by
  have hrev : (pre ++ '/' :: name.data).reverse =
      name.data.reverse ++ '/' :: pre.reverse := by
    rw [List.reverse_append, List.reverse_cons, List.append_assoc,
      List.singleton_append]
  have htw := takeWhile_until_slash name.data.reverse pre.reverse
    (fun c hc => h c (List.mem_reverse.mp hc))
  show (⟨((pre ++ '/' :: name.data).reverse.takeWhile
      (fun c => c != '/')).reverse⟩ : String) = name
  rw [hrev, htw, List.reverse_reverse]

theorem basename_tempPath (d : Date) (company : String)
    (hc : ∀ c ∈ company.data, c ≠ '/') :
    basename (tempPath d company) =
      Date.toIso d ++ "-" ++ company ++ ".pdf" := by
  have h0 : "temp_reports/".data = "temp_reports".data ++ ['/'] := by decide
  have hdata : (tempPath d company).data =
      "temp_reports".data ++
        '/' :: (Date.toIso d ++ "-" ++ company ++ ".pdf").data := by
    simp [tempPath, String.data_append, h0, List.append_assoc]
  have hname : ∀ c ∈ (Date.toIso d ++ "-" ++ company ++ ".pdf").data,
      c ≠ '/' := by
    intro c hcm
    simp only [String.data_append] at hcm
    rcases List.mem_append.mp hcm with h | h
    · rcases List.mem_append.mp h with h | h
      · rcases List.mem_append.mp h with h | h
        · exact toIso_ne_slash d c h
        · rw [List.mem_singleton.mp h]
          decide
      · exact hc c h
    · simp only [List.mem_cons, List.not_mem_nil, or_false] at h
      rcases h with rfl | rfl | rfl | rfl <;> decide
  have heq : tempPath d company =
      ⟨"temp_reports".data ++
        '/' :: (Date.toIso d ++ "-" ++ company ++ ".pdf").data⟩ :=
    String.ext hdata
  rw [heq]
  exact basename_of_no_slash _ _ hname

/-- Lines 57-60: `drive.CreateFile` with the given title and parent,
`SetContentFile`, `Upload` - a plain (non-folder) node appears. -/
def createFileIn (s : DriveState) (title parentId : String) : DriveState :=
  ⟨s.files ++ [⟨⟨'f' :: natDigits s.nextId⟩, title, parentId, false, false⟩],
   s.nextId + 1⟩

/-- `upload_to_drive` (lines 49-61): resolve CSE Reports / company code /
"type Reports" and create the file there, titled
`os.path.basename(file_path)`. -/
def upload_to_drive (s : DriveState) (filePath company reportType : String) :
    DriveState :=
  let r1 := get_or_create_folder s "CSE Reports" "root"
  let r2 := get_or_create_folder r1.2 company r1.1
  let r3 := get_or_create_folder r2.2 (reportType ++ " Reports") r2.1
  createFileIn r3.2 (basename filePath) r3.1

/-- A non-folder node with this title exists whose parent chain is a folder
named `reportType ++ " Reports"`, inside a folder named after the company,
inside a folder "CSE Reports" sitting under the Drive root. -/
def placedOk (s : DriveState) (title company reportType : String) : Prop :=
  ∃ f ∈ s.files, f.isFolder = false ∧ f.title = title ∧
    ∃ g ∈ s.files, g.id = f.parent ∧ g.isFolder = true ∧
      g.title = reportType ++ " Reports" ∧
      ∃ h ∈ s.files, h.id = g.parent ∧ h.isFolder = true ∧
        h.title = company ∧
        ∃ k ∈ s.files, k.id = h.parent ∧ k.isFolder = true ∧
          k.title = "CSE Reports" ∧ k.parent = "root"

/-- `get_or_create_folder` keeps every existing node and ends with a
non-trashed folder of the requested name under the requested parent whose
id it returns. -/
theorem get_or_create_folder_spec (s : DriveState) (nm p : String) :
    (∀ f ∈ s.files, f ∈ (get_or_create_folder s nm p).2.files) ∧
    ∃ f ∈ (get_or_create_folder s nm p).2.files,
      f.id = (get_or_create_folder s nm p).1 ∧ f.title = nm ∧
        f.parent = p ∧ f.isFolder = true := by
  cases hq : listQuery s.files p nm with
  | cons f fs =>
    have h1 : get_or_create_folder s nm p = (f.id, s) := by
      simp [get_or_create_folder, hq]
    have hfq : f ∈ listQuery s.files p nm := by
      rw [hq]
      exact List.mem_cons_self f fs
    obtain ⟨hfm, hmatch⟩ := List.mem_filter.mp hfq
    simp only [folderMatch, Bool.and_eq_true, beq_iff_eq] at hmatch
    rw [h1]
    exact ⟨fun f' hf' => hf',
      f, hfm, rfl, hmatch.1.2, hmatch.1.1.1, hmatch.1.1.2⟩
  | nil =>
    have h1 : get_or_create_folder s nm p =
        (⟨'f' :: natDigits s.nextId⟩,
         ⟨s.files ++ [⟨⟨'f' :: natDigits s.nextId⟩, nm, p, true, false⟩],
          s.nextId + 1⟩) := by
      simp [get_or_create_folder, hq]
    rw [h1]
    exact ⟨fun f' hf' => List.mem_append_left _ hf',
      ⟨⟨'f' :: natDigits s.nextId⟩, nm, p, true, false⟩,
      List.mem_append_right _ (List.mem_singleton.mpr rfl),
      rfl, rfl, rfl, rfl⟩

/-- After `upload_to_drive`, a file titled `basename filePath` sits under
the three-level folder chain. -/
theorem upload_places (s : DriveState) (filePath company reportType : String) :
    placedOk (upload_to_drive s filePath company reportType)
      (basename filePath) company reportType := by
  simp only [upload_to_drive]
  obtain ⟨m1, k1, hk1m, hk1id, hk1t, hk1p, hk1fo⟩ :=
    get_or_create_folder_spec s "CSE Reports" "root"
  generalize hR1 : get_or_create_folder s "CSE Reports" "root" = r1 at *
  obtain ⟨m2, k2, hk2m, hk2id, hk2t, hk2p, hk2fo⟩ :=
    get_or_create_folder_spec r1.2 company r1.1
  generalize hR2 : get_or_create_folder r1.2 company r1.1 = r2 at *
  obtain ⟨m3, k3, hk3m, hk3id, hk3t, hk3p, hk3fo⟩ :=
    get_or_create_folder_spec r2.2 (reportType ++ " Reports") r2.1
  generalize hR3 :
    get_or_create_folder r2.2 (reportType ++ " Reports") r2.1 = r3 at *
  refine ⟨⟨⟨'f' :: natDigits r3.2.nextId⟩, basename filePath, r3.1,
      false, false⟩,
    List.mem_append_right _ (List.mem_singleton.mpr rfl), rfl, rfl,
    k3, List.mem_append_left _ hk3m, hk3id, hk3fo, hk3t,
    k2, List.mem_append_left _ (m3 k2 hk2m), ?_, hk2fo, hk2t,
    k1, List.mem_append_left _ (m3 k1 (m2 k1 hk1m)), ?_, hk1fo, hk1t, hk1p⟩
  · rw [hk3p]
    exact hk2id
  · rw [hk2p]
    exact hk1id

/-- Every successful upload event of a cycle carries the local path
synthesised from some row's parsed date (a date at or after the cutoff)
and the company code. -/
theorem upload_event_path (fetchOk uploadOk : String → Bool)
    (company : String) (cutoff : Date) (rows : List Row) (p : String)
    (hp : Ev.upload p true ∈
      (processRows fetchOk uploadOk company cutoff rows).events) :
    ∃ dd, (∃ row ∈ rows, row.dateText = some dd) ∧
      Date.le cutoff dd = true ∧ p = tempPath dd company := by
  induction rows with
  | nil => simp [processRows] at hp
  | cons row rest ih =>
    obtain ⟨n, dt, pl⟩ := row
    by_cases h2 : n < 2
    · rw [processRows_skip_short fetchOk uploadOk company cutoff dt pl n rest h2]
        at hp
      obtain ⟨dd, ⟨r, hr, hrd⟩, h3, h4⟩ := ih hp
      exact ⟨dd, ⟨r, List.mem_cons_of_mem _ hr, hrd⟩, h3, h4⟩
    · cases dt with
      | none =>
        have hskip : processRows fetchOk uploadOk company cutoff
            (⟨n, none, pl⟩ :: rest) =
            skipStep (processRows fetchOk uploadOk company cutoff rest) := by
          simp [processRows, h2]
        rw [hskip] at hp
        obtain ⟨dd, ⟨r, hr, hrd⟩, h3, h4⟩ := ih hp
        exact ⟨dd, ⟨r, List.mem_cons_of_mem _ hr, hrd⟩, h3, h4⟩
      | some d =>
        by_cases hle : Date.le cutoff d = true
        · cases pl with
          | none =>
            have hskip : processRows fetchOk uploadOk company cutoff
                (⟨n, some d, none⟩ :: rest) =
                skipStep (processRows fetchOk uploadOk company cutoff rest) := by
              simp [processRows, h2, hle]
            rw [hskip] at hp
            obtain ⟨dd, ⟨r, hr, hrd⟩, h3, h4⟩ := ih hp
            exact ⟨dd, ⟨r, List.mem_cons_of_mem _ hr, hrd⟩, h3, h4⟩
          | some url =>
            by_cases hf : fetchOk url = true
            · by_cases hu : uploadOk (tempPath d company) = true
              · have hq : processRows fetchOk uploadOk company cutoff
                    (⟨n, some d, some url⟩ :: rest) =
                    ⟨Ev.fetch url true :: Ev.writeFile (tempPath d company) ::
                       Ev.upload (tempPath d company) true ::
                       Ev.removeFile (tempPath d company) ::
                       (processRows fetchOk uploadOk company cutoff
                         rest).events,
                     (processRows fetchOk uploadOk company cutoff
                       rest).count + 1,
                     (d, url) :: (processRows fetchOk uploadOk company cutoff
                       rest).uploaded,
                     (processRows fetchOk uploadOk company cutoff
                       rest).examined + 1,
                     (processRows fetchOk uploadOk company cutoff
                       rest).aborted⟩ := by
                  simp [processRows, h2, hle, hf, hu]
                rw [hq] at hp
                simp only [List.mem_cons] at hp
                rcases hp with h | h | h | h | h
                · exact absurd h (by simp)
                · exact absurd h (by simp)
                · have hpp : p = tempPath d company := by
                    simpa using h
                  exact ⟨d, ⟨⟨n, some d, some url⟩,
                    List.mem_cons_self _ _, rfl⟩, hle, hpp⟩
                · exact absurd h (by simp)
                · obtain ⟨dd, ⟨r, hr, hrd⟩, h3, h4⟩ := ih h
                  exact ⟨dd, ⟨r, List.mem_cons_of_mem _ hr, hrd⟩, h3, h4⟩
              · have hq : processRows fetchOk uploadOk company cutoff
                    (⟨n, some d, some url⟩ :: rest) =
                    ⟨[Ev.fetch url true, Ev.writeFile (tempPath d company),
                       Ev.upload (tempPath d company) false],
                     0, [], 1, true⟩ := by
                  simp [processRows, h2, hle, hf, hu]
                rw [hq] at hp
                simp at hp
            · have hq : processRows fetchOk uploadOk company cutoff
                  (⟨n, some d, some url⟩ :: rest) =
                  ⟨[Ev.fetch url false], 0, [], 1, true⟩ := by
                simp [processRows, h2, hle, hf]
              rw [hq] at hp
              simp at hp
        · have hstop : processRows fetchOk uploadOk company cutoff
              (⟨n, some d, pl⟩ :: rest) = ⟨[], 0, [], 1, false⟩ := by
            simp [processRows, h2, hle]
          rw [hstop] at hp
          simp at hp

/-- Claim C8: every successful upload of a cycle uses the local path
`temp_reports/<ISO date>-<company>.pdf` synthesised from some row's parsed
date at or after the cutoff; for a company code containing no slash, the
document's Drive title is exactly `<ISO date>-<company>.pdf`, and
`upload_to_drive` places it inside a folder named `"<Type> Reports"`,
inside a folder named after the company code, inside the fixed top folder
"CSE Reports" under the Drive root. -/
theorem upload_destination (s : DriveState) (d : Date)
    (company reportType : String) (hc : ∀ c ∈ company.data, c ≠ '/') :
    basename (tempPath d company) =
      Date.toIso d ++ "-" ++ company ++ ".pdf" ∧
    placedOk (upload_to_drive s (tempPath d company) company reportType)
      (Date.toIso d ++ "-" ++ company ++ ".pdf") company reportType ∧
    (∀ (fetchOk uploadOk : String → Bool) (cutoff : Date) (rows : List Row)
        (p : String),
      Ev.upload p true ∈
          (processRows fetchOk uploadOk company cutoff rows).events →
      ∃ dd, (∃ row ∈ rows, row.dateText = some dd) ∧
        Date.le cutoff dd = true ∧ p = tempPath dd company) := by
  refine ⟨basename_tempPath d company hc, ?_, ?_⟩
  · have h := upload_places s (tempPath d company) company reportType
    rwa [basename_tempPath d company hc] at h
  · intro fetchOk uploadOk cutoff rows p hp
    exact upload_event_path fetchOk uploadOk company cutoff rows p hp

/-- Witness for C8 on an initially empty Drive with company LOLC. -/
theorem upload_destination_witness :
    (∀ c ∈ ("LOLC" : String).data, c ≠ '/') ∧
    basename (tempPath ⟨2024, 3, 1⟩ "LOLC") =
      Date.toIso ⟨2024, 3, 1⟩ ++ "-" ++ "LOLC" ++ ".pdf" ∧
    placedOk
      (upload_to_drive ⟨[], 0⟩ (tempPath ⟨2024, 3, 1⟩ "LOLC") "LOLC"
        "Quarterly")
      (Date.toIso ⟨2024, 3, 1⟩ ++ "-" ++ "LOLC" ++ ".pdf") "LOLC"
      "Quarterly" :=
  ⟨by decide,
    (upload_destination ⟨[], 0⟩ ⟨2024, 3, 1⟩ "LOLC" "Quarterly"
      (by decide)).1,
    (upload_destination ⟨[], 0⟩ ⟨2024, 3, 1⟩ "LOLC" "Quarterly"
      (by decide)).2.1⟩

/-- Split a character list at every occurrence of `sep`, as Python's
`str.split` over a one-character separator. -/
def splitOnChar (sep : Char) : List Char → List (List Char)
  | [] => [[]]
  | c :: cs =>
    if c = sep then [] :: splitOnChar sep cs
    else
      match splitOnChar sep cs with
      | [] => [[c]]
      | g :: gs => (c :: g) :: gs

/-- Value of a decimal digit string. -/
def digitsToNat (l : List Char) : Nat :=
  l.foldl (fun a c => a * 10 + (c.toNat - 48)) 0

/-- The day-count validation done by `datetime`, leap years included. -/
def daysInMonth (y m : Nat) : Nat :=
  if m = 2 then
    if (y % 4 = 0 ∧ y % 100 ≠ 0) ∨ y % 400 = 0 then 29 else 28
  else if m = 4 ∨ m = 6 ∨ m = 9 ∨ m = 11 then 30 else 31

/-- The `%Y` field of CPython's `_strptime` (regex `\d\d\d\d`): exactly
four digits; `datetime` additionally rejects year 0 (`MINYEAR` is 1). -/
def parseYear (l : List Char) : Option Nat :=
  if l.length = 4 ∧ l.all Char.isDigit ∧ 1 ≤ digitsToNat l then
    some (digitsToNat l)
  else none

/-- The `%m` field of CPython's `_strptime`
(regex `1[0-2]|0[1-9]|[1-9]`): one or two digits valued 1-12. -/
def parseMonth (l : List Char) : Option Nat :=
  if l ≠ [] ∧ l.length ≤ 2 ∧ l.all Char.isDigit ∧
      1 ≤ digitsToNat l ∧ digitsToNat l ≤ 12 then
    some (digitsToNat l)
  else none

/-- The `%d` field of CPython's `_strptime`
(regex `3[0-1]|[1-2]\d|0[1-9]|[1-9]| [1-9]`): one or two digits valued
1-31, or a space followed by one nonzero digit. -/
def parseDay (l : List Char) : Option Nat :=
  match l with
  | [' ', c] => if c.isDigit ∧ c ≠ '0' then some (digitsToNat [c]) else none
  | _ =>
    if l ≠ [] ∧ l.length ≤ 2 ∧ l.all Char.isDigit ∧
        1 ≤ digitsToNat l ∧ digitsToNat l ≤ 31 then
      some (digitsToNat l)
    else none

/-- `datetime.strptime(start_date_str, %Y-%m-%d)` (line 87): the three
dash-separated fields are matched by `_strptime`'s `%Y`, `%m` and `%d`
patterns, then `datetime` requires a real calendar day of the month;
`none` models the `ValueError`. -/
def parseIsoDate (s : String) : Option Date :=
  match splitOnChar '-' s.data with
  | [ys, ms, ds] =>
    match parseYear ys, parseMonth ms, parseDay ds with
    | some y, some m, some d =>
      if d ≤ daysInMonth y m then some ⟨y, m, d⟩ else none
    | _, _, _ => none
  | _ => none

/-- What the rendered page offers one report type: whether tab activation
and the table-visibility wait succeed (lines 73-76), and the container
lookup: `none` when `soup.find` misses the div (lines 81-82), `some none`
when the div has no `tbody` (then line 84 raises `AttributeError` on
`None.find_all`), and `some (some rows)` otherwise. -/
structure PageEnv where
  navOk : Bool
  container : Option (Option (List Row))
deriving Repr

/-- `download_report` (lines 63-129).  The whole body runs inside
`try/except`, so the function always returns; `aborted` records that the
handler at line 128 caught an exception and printed the error. -/
def download_report (env : PageEnv) (fetchOk uploadOk : String → Bool)
    (company reportType startDateStr : String) : SyncResult :=
  if reportType = "Quarterly" ∨ reportType = "Annual" then
    if env.navOk then
      match env.container with
      | none => ⟨[], 0, [], 0, false⟩
      | some none => ⟨[], 0, [], 0, true⟩
      | some (some rows) =>
        if rows.isEmpty then ⟨[], 0, [], 0, false⟩
        else
          match parseIsoDate startDateStr with
          | none => ⟨[], 0, [], 0, true⟩
          | some cutoff => processRows fetchOk uploadOk company cutoff rows
    else ⟨[], 0, [], 0, true⟩
  else ⟨[], 0, [], 0, false⟩

/-- Local `temp_reports` contents after a trace: `open(_, wb)` creates the
path (overwriting an existing file), `os.remove` deletes it. -/
def diskAfter : List Ev → List String → List String
  | [], disk => disk
  | Ev.writeFile p :: rest, disk =>
    diskAfter rest (if p ∈ disk then disk else disk ++ [p])
  | Ev.removeFile p :: rest, disk => diskAfter rest (disk.erase p)
  | _ :: rest, disk => diskAfter rest disk

/-- Transient artifacts left behind by a trace that started on an empty
temp directory. -/
def remainingFiles (evs : List Ev) : List String :=
  diskAfter evs []

/-- No Drive upload in the trace raised. -/
def uploadFailFree (evs : List Ev) : Bool :=
  evs.all fun e =>
    match e with
    | Ev.upload _ false => false
    | _ => true

def allFalse : String → Bool := fun _ => false

theorem diskAfter_processRows_subset (fetchOk uploadOk : String → Bool)
    (company : String) (cutoff : Date) (rows : List Row) :
    ∀ disk : List String,
      uploadFailFree
        (processRows fetchOk uploadOk company cutoff rows).events = true →
      diskAfter (processRows fetchOk uploadOk company cutoff rows).events disk
        ⊆ disk := by
  induction rows with
  | nil =>
    intro disk _
    exact fun a ha => ha
  | cons row rest ih =>
    intro disk hfree
    obtain ⟨n, dt, pl⟩ := row
    by_cases h2 : n < 2
    · rw [processRows_skip_short fetchOk uploadOk company cutoff dt pl n rest h2]
        at hfree ⊢
      exact ih disk hfree
    · cases dt with
      | none =>
        have hskip : processRows fetchOk uploadOk company cutoff
            (⟨n, none, pl⟩ :: rest) =
            skipStep (processRows fetchOk uploadOk company cutoff rest) := by
          simp [processRows, h2]
        rw [hskip] at hfree ⊢
        exact ih disk hfree
      | some d =>
        by_cases hle : Date.le cutoff d = true
        · cases pl with
          | none =>
            have hskip : processRows fetchOk uploadOk company cutoff
                (⟨n, some d, none⟩ :: rest) =
                skipStep
                  (processRows fetchOk uploadOk company cutoff rest) := by
              simp [processRows, h2, hle]
            rw [hskip] at hfree ⊢
            exact ih disk hfree
          | some url =>
            by_cases hf : fetchOk url = true
            · by_cases hu : uploadOk (tempPath d company) = true
              · have hq : processRows fetchOk uploadOk company cutoff
                    (⟨n, some d, some url⟩ :: rest) =
                    ⟨Ev.fetch url true :: Ev.writeFile (tempPath d company) ::
                       Ev.upload (tempPath d company) true ::
                       Ev.removeFile (tempPath d company) ::
                       (processRows fetchOk uploadOk company cutoff
                         rest).events,
                     (processRows fetchOk uploadOk company cutoff
                       rest).count + 1,
                     (d, url) :: (processRows fetchOk uploadOk company cutoff
                       rest).uploaded,
                     (processRows fetchOk uploadOk company cutoff
                       rest).examined + 1,
                     (processRows fetchOk uploadOk company cutoff
                       rest).aborted⟩ := by
                  simp [processRows, h2, hle, hf, hu]
                rw [hq] at hfree ⊢
                have hfree' : uploadFailFree
                    (processRows fetchOk uploadOk company cutoff
                      rest).events = true := by
                  simpa [uploadFailFree] using hfree
                show diskAfter
                    (processRows fetchOk uploadOk company cutoff rest).events
                    ((if tempPath d company ∈ disk then disk
                      else disk ++ [tempPath d company]).erase
                      (tempPath d company)) ⊆ disk
                by_cases hmem : tempPath d company ∈ disk
                · rw [if_pos hmem]
                  exact fun a ha =>
                    List.erase_subset _ _
                      (ih (disk.erase (tempPath d company)) hfree' ha)
                · rw [if_neg hmem]
                  have herase : (disk ++ [tempPath d company]).erase
                      (tempPath d company) = disk := by
                    rw [List.erase_append_right _ hmem,
                      List.erase_cons_head, List.append_nil]
                  rw [herase]
                  exact ih disk hfree'
              · have hq : processRows fetchOk uploadOk company cutoff
                    (⟨n, some d, some url⟩ :: rest) =
                    ⟨[Ev.fetch url true, Ev.writeFile (tempPath d company),
                       Ev.upload (tempPath d company) false],
                     0, [], 1, true⟩ := by
                  simp [processRows, h2, hle, hf, hu]
                rw [hq] at hfree
                simp [uploadFailFree] at hfree
            · have hq : processRows fetchOk uploadOk company cutoff
                  (⟨n, some d, some url⟩ :: rest) =
                  ⟨[Ev.fetch url false], 0, [], 1, true⟩ := by
                simp [processRows, h2, hle, hf]
              rw [hq]
              exact fun a ha => ha
        · have hstop : processRows fetchOk uploadOk company cutoff
              (⟨n, some d, pl⟩ :: rest) = ⟨[], 0, [], 1, false⟩ := by
            simp [processRows, h2, hle]
          rw [hstop]
          exact fun a ha => ha

/-- Claim C4, counterexample: when the Drive upload of a record raises, the
`os.remove` at line 119 is never reached - the cycle's error is caught at
line 128, yet the artifact written for that record is still on disk after
the cycle completes. -/
theorem artifact_cleanup_counterexample :
    (download_report ⟨true, some (some [⟨2, some ⟨2024, 2, 1⟩,
          some "u.pdf"⟩])⟩
        allTrue allFalse "LOLC" "Quarterly" "2024-01-01").aborted = true ∧
    remainingFiles
        (download_report ⟨true, some (some [⟨2, some ⟨2024, 2, 1⟩,
            some "u.pdf"⟩])⟩
          allTrue allFalse "LOLC" "Quarterly" "2024-01-01").events =
      ["temp_reports/2024-02-01-LOLC.pdf"] := by
  decide

/-- Claim C4 (amended): an artifact is removed immediately after its
record's successful upload, and a failed fetch writes no artifact, so a
cycle whose trace contains no failed upload leaves the temp directory
empty; only a record whose Drive upload itself raises leaves its artifact
behind. -/
theorem artifact_cleanup_amended (env : PageEnv)
    (fetchOk uploadOk : String → Bool)
    (company reportType startDateStr : String)
    (hfree : uploadFailFree
      (download_report env fetchOk uploadOk company reportType
        startDateStr).events = true) :
    remainingFiles
      (download_report env fetchOk uploadOk company reportType
        startDateStr).events = [] := by
  revert hfree
  unfold download_report
  split
  · split
    · split
      · intro _
        rfl
      · intro _
        rfl
      · split
        · intro _
          rfl
        · split
          · intro _
            rfl
          · intro hfree
            have hsub := diskAfter_processRows_subset fetchOk uploadOk
              company _ _ [] hfree
            exact List.eq_nil_iff_forall_not_mem.mpr
              fun a ha => List.not_mem_nil a (hsub ha)
    · intro _
      rfl
  · intro _
    rfl

/-- Witness for the amended C4: a cycle with one qualifying record and a
successful upload leaves nothing on disk. -/
theorem artifact_cleanup_amended_witness :
    uploadFailFree
        (download_report ⟨true, some (some [⟨2, some ⟨2024, 2, 1⟩,
            some "u.pdf"⟩])⟩
          allTrue allTrue "LOLC" "Quarterly" "2024-01-01").events = true ∧
    remainingFiles
        (download_report ⟨true, some (some [⟨2, some ⟨2024, 2, 1⟩,
            some "u.pdf"⟩])⟩
          allTrue allTrue "LOLC" "Quarterly" "2024-01-01").events = [] :=
  ⟨by decide,
    artifact_cleanup_amended ⟨true, some (some [⟨2, some ⟨2024, 2, 1⟩,
        some "u.pdf"⟩])⟩
      allTrue allTrue "LOLC" "Quarterly" "2024-01-01" (by decide)⟩

/-- Successful uploads in a trace. -/
def countUploads (evs : List Ev) : Nat :=
  (evs.filter fun e =>
    match e with
    | Ev.upload _ true => true
    | _ => false).length

theorem processRows_count (fetchOk uploadOk : String → Bool)
    (company : String) (cutoff : Date) (rows : List Row) :
    (processRows fetchOk uploadOk company cutoff rows).count =
      countUploads
        (processRows fetchOk uploadOk company cutoff rows).events := by
  induction rows with
  | nil => rfl
  | cons row rest ih =>
    obtain ⟨n, dt, pl⟩ := row
    by_cases h2 : n < 2
    · rw [processRows_skip_short fetchOk uploadOk company cutoff dt pl n rest h2]
      exact ih
    · cases dt with
      | none =>
        have hskip : processRows fetchOk uploadOk company cutoff
            (⟨n, none, pl⟩ :: rest) =
            skipStep (processRows fetchOk uploadOk company cutoff rest) := by
          simp [processRows, h2]
        rw [hskip]
        exact ih
      | some d =>
        by_cases hle : Date.le cutoff d = true
        · cases pl with
          | none =>
            have hskip : processRows fetchOk uploadOk company cutoff
                (⟨n, some d, none⟩ :: rest) =
                skipStep
                  (processRows fetchOk uploadOk company cutoff rest) := by
              simp [processRows, h2, hle]
            rw [hskip]
            exact ih
          | some url =>
            by_cases hf : fetchOk url = true
            · by_cases hu : uploadOk (tempPath d company) = true
              · have hq : processRows fetchOk uploadOk company cutoff
                    (⟨n, some d, some url⟩ :: rest) =
                    ⟨Ev.fetch url true :: Ev.writeFile (tempPath d company) ::
                       Ev.upload (tempPath d company) true ::
                       Ev.removeFile (tempPath d company) ::
                       (processRows fetchOk uploadOk company cutoff
                         rest).events,
                     (processRows fetchOk uploadOk company cutoff
                       rest).count + 1,
                     (d, url) :: (processRows fetchOk uploadOk company cutoff
                       rest).uploaded,
                     (processRows fetchOk uploadOk company cutoff
                       rest).examined + 1,
                     (processRows fetchOk uploadOk company cutoff
                       rest).aborted⟩ := by
                  simp [processRows, h2, hle, hf, hu]
                rw [hq]
                show (processRows fetchOk uploadOk company cutoff
                    rest).count + 1 = countUploads (_ :: _ :: _ :: _ :: _)
                simp only [countUploads, List.filter_cons]
                rw [ih]
                simp [countUploads]
              · have hq : processRows fetchOk uploadOk company cutoff
                    (⟨n, some d, some url⟩ :: rest) =
                    ⟨[Ev.fetch url true, Ev.writeFile (tempPath d company),
                       Ev.upload (tempPath d company) false],
                     0, [], 1, true⟩ := by
                  simp [processRows, h2, hle, hf, hu]
                rw [hq]
                rfl
            · have hq : processRows fetchOk uploadOk company cutoff
                  (⟨n, some d, some url⟩ :: rest) =
                  ⟨[Ev.fetch url false], 0, [], 1, true⟩ := by
                simp [processRows, h2, hle, hf]
              rw [hq]
              rfl
        · have hstop : processRows fetchOk uploadOk company cutoff
              (⟨n, some d, pl⟩ :: rest) = ⟨[], 0, [], 1, false⟩ := by
            simp [processRows, h2, hle]
          rw [hstop]
          rfl

/-- Claim C6: the cycle's `downloads_found` counter equals the number of
successful uploads in its trace, and - once the tab has been activated -
an absent report container or an empty table gives count 0 with no abort:
a normal outcome, not an error. -/
theorem sync_count (env : PageEnv) (fetchOk uploadOk : String → Bool)
    (company reportType startDateStr : String) :
    (download_report env fetchOk uploadOk company reportType
        startDateStr).count =
      countUploads (download_report env fetchOk uploadOk company reportType
        startDateStr).events ∧
    (env.navOk = true →
      env.container = none ∨ env.container = some (some []) →
      download_report env fetchOk uploadOk company reportType startDateStr =
        ⟨[], 0, [], 0, false⟩) := by
  constructor
  · unfold download_report
    split
    · split
      · split
        · rfl
        · rfl
        · split
          · rfl
          · split
            · rfl
            · exact processRows_count fetchOk uploadOk company _ _
      · rfl
    · rfl
  · intro hnav hcont
    unfold download_report
    rcases hcont with h | h <;> rw [h] <;> simp [hnav]

/-- Witness for C6: an absent container is a normal zero-count outcome. -/
theorem sync_count_witness :
    (⟨true, none⟩ : PageEnv).navOk = true ∧
    download_report ⟨true, none⟩ allTrue allTrue "LOLC" "Quarterly"
        "2024-01-01" = ⟨[], 0, [], 0, false⟩ :=
  ⟨rfl,
    (sync_count ⟨true, none⟩ allTrue allTrue "LOLC" "Quarterly"
      "2024-01-01").2 rfl (Or.inl rfl)⟩

/-- Claim C10: a present container without a `tbody` makes line 84 raise
(`AttributeError` on `None.find_all`); the cycle aborts with the error
caught and reported at its boundary and zero uploads - unlike an empty
table, which ends the cycle normally. -/
theorem missing_tbody_aborts (env : PageEnv)
    (fetchOk uploadOk : String → Bool)
    (company reportType startDateStr : String)
    (hrt : reportType = "Quarterly" ∨ reportType = "Annual")
    (hnav : env.navOk = true) (hcont : env.container = some none) :
    (download_report env fetchOk uploadOk company reportType
        startDateStr).aborted = true ∧
    (download_report env fetchOk uploadOk company reportType
        startDateStr).count = 0 ∧
    (download_report ⟨env.navOk, some (some [])⟩ fetchOk uploadOk company
        reportType startDateStr).aborted = false := by
  rcases hrt with rfl | rfl <;>
    simp [download_report, hnav, hcont]

/-- Witness for C10 at a concrete page. -/
theorem missing_tbody_aborts_witness :
    (download_report ⟨true, some none⟩ allTrue allTrue "LOLC" "Quarterly"
        "2024-01-01").aborted = true ∧
    (download_report ⟨true, some (some [])⟩ allTrue allTrue "LOLC"
        "Quarterly" "2024-01-01").aborted = false :=
  ⟨(missing_tbody_aborts ⟨true, some none⟩ allTrue allTrue "LOLC"
      "Quarterly" "2024-01-01" (Or.inl rfl) rfl rfl).1,
    (missing_tbody_aborts ⟨true, some none⟩ allTrue allTrue "LOLC"
      "Quarterly" "2024-01-01" (Or.inl rfl) rfl rfl).2.2⟩

/-- Inputs of one whole run (lines 131-169): whether authentication,
browser startup and the company-page navigation succeed, the page
environment each report type will see, and the fetch/upload oracles. -/
structure RunEnv where
  authOk : Bool
  browserOk : Bool
  pageNavOk : Bool
  quarterlyEnv : PageEnv
  annualEnv : PageEnv
  fetchOk : String → Bool
  uploadOk : String → Bool

/-- Outcome of `run_downloader`: the trace, the per-type results when those
cycles were reached, and whether `driver.quit()` ran in the `finally`
(line 168: only when the driver was created). -/
structure RunResult where
  events : List Ev
  qres : Option SyncResult
  ares : Option SyncResult
  browserClosed : Bool
deriving DecidableEq, Repr

/-- `run_downloader` (lines 131-169): authentication failure returns before
any browser work; a browser-startup failure is caught at line 165 with no
driver to quit; a navigation failure is caught there after which the
`finally` closes the browser; otherwise both report-type cycles run in
order - `download_report` catches its own exceptions, so nothing from one
cycle can reach the other. -/
def run_downloader (env : RunEnv) (company startDateStr : String) :
    RunResult :=
  if env.authOk then
    if env.browserOk then
      if env.pageNavOk then
        ⟨Ev.auth true :: Ev.browserStart :: Ev.navigateCompany ::
           ((download_report env.quarterlyEnv env.fetchOk env.uploadOk
               company "Quarterly" startDateStr).events ++
             (download_report env.annualEnv env.fetchOk env.uploadOk company
               "Annual" startDateStr).events),
         some (download_report env.quarterlyEnv env.fetchOk env.uploadOk
           company "Quarterly" startDateStr),
         some (download_report env.annualEnv env.fetchOk env.uploadOk
           company "Annual" startDateStr),
         true⟩
      else ⟨[Ev.auth true, Ev.browserStart], none, none, true⟩
    else ⟨[Ev.auth true], none, none, false⟩
  else ⟨[Ev.auth false], none, none, false⟩

/-- Claim C5: once authentication, browser startup and navigation succeed,
both report-type cycles run; each cycle's result is a function of its own
page environment alone, so an exception caught inside the quarterly cycle
(its `aborted` flag) cannot change the annual result or keep the run from
finishing and closing the browser.  In particular a fetch failure on the
second of three qualifying records leaves that cycle aborted with exactly
the one earlier upload. -/
theorem failure_isolation (env : RunEnv) (company startDateStr : String)
    (ha : env.authOk = true) (hb : env.browserOk = true)
    (hn : env.pageNavOk = true) :
    (run_downloader env company startDateStr).qres =
      some (download_report env.quarterlyEnv env.fetchOk env.uploadOk
        company "Quarterly" startDateStr) ∧
    (run_downloader env company startDateStr).ares =
      some (download_report env.annualEnv env.fetchOk env.uploadOk company
        "Annual" startDateStr) ∧
    (run_downloader env company startDateStr).browserClosed = true ∧
    (∀ (cutoff d1 d2 : Date) (u1 u2 : String) (rest : List Row),
      Date.le cutoff d1 = true → Date.le cutoff d2 = true →
      env.fetchOk u1 = true → env.uploadOk (tempPath d1 company) = true →
      env.fetchOk u2 = false →
      (processRows env.fetchOk env.uploadOk company cutoff
          (⟨2, some d1, some u1⟩ :: ⟨2, some d2, some u2⟩ :: rest)).count
        = 1 ∧
      (processRows env.fetchOk env.uploadOk company cutoff
          (⟨2, some d1, some u1⟩ :: ⟨2, some d2, some u2⟩ :: rest)).aborted
        = true) := by
  refine ⟨by simp [run_downloader, ha, hb, hn],
    by simp [run_downloader, ha, hb, hn],
    by simp [run_downloader, ha, hb, hn], ?_⟩
  intro cutoff d1 d2 u1 u2 rest h1 h2 hf1 hu1 hf2
  have hq2 : processRows env.fetchOk env.uploadOk company cutoff
      (⟨2, some d2, some u2⟩ :: rest) =
      ⟨[Ev.fetch u2 false], 0, [], 1, true⟩ := by
    simp [processRows, h2, hf2]
  rw [processRows_qualifying env.fetchOk env.uploadOk company cutoff d1 u1
    (⟨2, some d2, some u2⟩ :: rest) h1 hf1 hu1, hq2]
  exact ⟨rfl, rfl⟩

def fetchNotU2 : String → Bool := fun u => u != "u2"

def envC5 : RunEnv :=
  ⟨true, true, true,
   ⟨true, some (some [⟨2, some ⟨2024, 3, 1⟩, some "u1"⟩,
     ⟨2, some ⟨2024, 2, 1⟩, some "u2"⟩,
     ⟨2, some ⟨2024, 1, 5⟩, some "u3"⟩])⟩,
   ⟨true, some (some [])⟩, fetchNotU2, allTrue⟩

/-- Witness for C5: quarterly fetch fails on the second of three qualifying
records, the annual cycle still runs and the browser closes. -/
theorem failure_isolation_witness :
    (run_downloader envC5 "LOLC" "2024-01-01").qres =
      some (download_report envC5.quarterlyEnv envC5.fetchOk envC5.uploadOk
        "LOLC" "Quarterly" "2024-01-01") ∧
    (run_downloader envC5 "LOLC" "2024-01-01").ares =
      some (download_report envC5.annualEnv envC5.fetchOk envC5.uploadOk
        "LOLC" "Annual" "2024-01-01") ∧
    (run_downloader envC5 "LOLC" "2024-01-01").browserClosed = true ∧
    (processRows envC5.fetchOk envC5.uploadOk "LOLC" ⟨2024, 1, 1⟩
        [⟨2, some ⟨2024, 3, 1⟩, some "u1"⟩,
         ⟨2, some ⟨2024, 2, 1⟩, some "u2"⟩,
         ⟨2, some ⟨2024, 1, 5⟩, some "u3"⟩]).count = 1 ∧
    (processRows envC5.fetchOk envC5.uploadOk "LOLC" ⟨2024, 1, 1⟩
        [⟨2, some ⟨2024, 3, 1⟩, some "u1"⟩,
         ⟨2, some ⟨2024, 2, 1⟩, some "u2"⟩,
         ⟨2, some ⟨2024, 1, 5⟩, some "u3"⟩]).aborted = true := by
  have h := failure_isolation envC5 "LOLC" "2024-01-01" rfl rfl rfl
  have h4 := h.2.2.2 ⟨2024, 1, 1⟩ ⟨2024, 3, 1⟩ ⟨2024, 2, 1⟩ "u1" "u2"
    [⟨2, some ⟨2024, 1, 5⟩, some "u3"⟩]
    (by decide) (by decide) (by decide) rfl (by decide)
  exact ⟨h.1, h.2.1, h.2.2.1, h4.1, h4.2⟩

/-- Outcome of the `__main__` block (lines 171-179). -/
inductive MainResult where
  | usage
  | ran (r : RunResult)
deriving DecidableEq, Repr

/-- Lines 171-179: only `len(sys.argv) == 3` is checked before calling
`run_downloader(sys.argv[1], sys.argv[2])`; otherwise the usage line is
printed and nothing runs. -/
def mainScraper (env : RunEnv) (argv : List String) : MainResult :=
  if argv.length = 3 then
    MainResult.ran (run_downloader env (argv.getD 1 "") (argv.getD 2 ""))
  else MainResult.usage

def mainEvents : MainResult → List Ev
  | MainResult.usage => []
  | MainResult.ran r => r.events

def envC7 : RunEnv :=
  ⟨true, true, true,
   ⟨true, some (some [⟨2, some ⟨2024, 3, 1⟩, some "a.pdf"⟩])⟩,
   ⟨true, none⟩, allTrue, allTrue⟩

/-- Claim C7, counterexample: with a correct argument count but a malformed
START_DATE, no usage message is printed and work is performed -
authentication, browser startup and navigation all happen, and the
malformed date only aborts each report-type cycle when line 87 parses it,
caught at the cycle boundary. -/
theorem usage_check_counterexample :
    mainScraper envC7 ["scraper.py", "LOLC", "not-a-date"] =
      MainResult.ran
        ⟨[Ev.auth true, Ev.browserStart, Ev.navigateCompany],
         some ⟨[], 0, [], 0, true⟩, some ⟨[], 0, [], 0, false⟩, true⟩ ∧
    mainScraper envC7 ["scraper.py", "LOLC", "not-a-date"] ≠
      MainResult.usage := by
  decide

/-- Claim C7 (amended): an invocation with a wrong argument count prints
the usage message and performs no work, but the START_DATE format is never
validated at the entry point: with exactly two arguments the full run
proceeds (authentication, browser session, navigation) whatever the date
string, and an unparseable date makes each report-type cycle abort when
the cycle itself parses it, caught at that cycle's boundary. -/
theorem usage_check_amended (env : RunEnv) (argv : List String) :
    (argv.length ≠ 3 → mainScraper env argv = MainResult.usage) ∧
    (argv.length = 3 → mainScraper env argv =
      MainResult.ran (run_downloader env (argv.getD 1 "")
        (argv.getD 2 ""))) ∧
    (∀ (penv : PageEnv) (f u : String → Bool) (c rt s : String)
        (rows : List Row) (row : Row),
      parseIsoDate s = none → rt = "Quarterly" ∨ rt = "Annual" →
      penv.navOk = true → penv.container = some (some (row :: rows)) →
      (download_report penv f u c rt s).aborted = true) := by
  refine ⟨fun h => by simp [mainScraper, h], fun h => by simp [mainScraper, h],
    ?_⟩
  intro penv f u c rt s rows row hparse hrt hnav hcont
  rcases hrt with rfl | rfl <;>
    simp [download_report, hnav, hcont, hparse]

/-- Witness for the amended C7: one missing argument means usage and no
work; an unparseable date aborts a cycle that reaches the parse. -/
theorem usage_check_amended_witness :
    mainScraper envC7 ["scraper.py", "LOLC"] = MainResult.usage ∧
    (download_report ⟨true, some (some [⟨2, some ⟨2024, 3, 1⟩,
          some "a.pdf"⟩])⟩
        allTrue allTrue "LOLC" "Quarterly" "31-12-2024").aborted = true :=
  ⟨(usage_check_amended envC7 ["scraper.py", "LOLC"]).1 (by decide),
    (usage_check_amended envC7 ["scraper.py", "LOLC"]).2.2
      ⟨true, some (some [⟨2, some ⟨2024, 3, 1⟩, some "a.pdf"⟩])⟩
      allTrue allTrue "LOLC" "Quarterly" "31-12-2024" []
      ⟨2, some ⟨2024, 3, 1⟩, some "a.pdf"⟩
      (by decide) (Or.inl rfl) rfl rfl⟩
